import Mathlib

/-!
Verification of the vegapunk-backend ledger/staking/referral core.

All monetary values are embedded as rationals (the source uses JS numbers);
SQL tables become explicit Lean state records, and each HTTP/worker operation
that the claims mention becomes a state-transition function translated from
the corresponding source location (cited at each definition).
-/

namespace Vegapunk

/-- One `wallet_ledger` row (the columns the claims depend on). -/
structure LRow where
  asset : String
  ltype : String
  amount : ℚ
  ref : Option String
deriving DecidableEq, Repr

/-- Credit-classified ledger types (src/unnamed/part_004 lines 152-162, `PLUS`). -/
def PLUS : List String :=
  ["deposit", "refund", "transfer_in", "stake_payout", "stake_refund",
   "stake_referral", "referral_reward", "referral_bonus", "swap_in"]

/-- Debit-classified ledger types (src/unnamed/part_004 lines 164-171, `MINUS`). -/
def MINUS : List String :=
  ["withdraw", "transfer_out", "purchase", "fee", "stake_lock", "swap_out"]

/-- Read-time signing of a stored amount by its type
(src/unnamed/part_004 lines 186-189: `PLUS.has -> base, MINUS.has -> -base, else base`). -/
def signedAmount (t : String) (base : ℚ) : ℚ :=
  if t ∈ PLUS then base else if t ∈ MINUS then -base else base

/-- Signed sum of all ledger rows of one asset, the reconciliation value the
spec calls `currentBalance`. -/
def signedSum (l : List LRow) (asset : String) : ℚ :=
  ((l.filter (fun r => r.asset == asset)).map (fun r => signedAmount r.ltype r.amount)).sum

/-- Wallet state of one user: the `wallet_balances` projection for the two
assets plus that user's `wallet_ledger` rows. -/
structure WSt where
  usdt : ℚ
  vpk : ℚ
  ledger : List LRow
deriving DecidableEq, Repr

def getBal (st : WSt) (asset : String) : ℚ :=
  if asset = "USDT" then st.usdt else st.vpk

def addBal (st : WSt) (asset : String) (d : ℚ) : WSt :=
  if asset = "USDT" then { st with usdt := st.usdt + d } else { st with vpk := st.vpk + d }

/-- `POST /v1/wallet/swap` (src/unnamed/part_006 lines 1240-1347).
`USDT->VPK` at rate 100, `VPK->USDT` at rate 1/100; balance check with the
`1e-9` tolerance of line 1284; debits `fromAsset`, credits `toAsset`, appends
a positive `swap_out` and a positive `swap_in` row.  A thrown/rolled-back
request leaves the database untouched, hence the `Except` error carries no
state. -/
def walletSwapCore (fromAsset toAsset : String) (amountFrom creditAmount : ℚ)
    (st : WSt) : Except String WSt :=
  if getBal st fromAsset + 1 / 1000000000 < amountFrom then
    Except.error "INSUFFICIENT_FUNDS"
  else
    let st1 := addBal st fromAsset (-amountFrom)
    let st2 := addBal st1 toAsset creditAmount
    Except.ok { st2 with
      ledger := st2.ledger ++
        [⟨fromAsset, "swap_out", amountFrom, none⟩,
         ⟨toAsset, "swap_in", creditAmount, none⟩] }

def walletSwap (fromAsset toAsset : String) (amountFrom : ℚ) (st : WSt) :
    Except String WSt :=
  if ¬ (0 < amountFrom) then Except.error "BAD_AMOUNT"
  else if fromAsset = "USDT" ∧ toAsset = "VPK" then
    walletSwapCore fromAsset toAsset amountFrom (amountFrom * 100) st
  else if fromAsset = "VPK" ∧ toAsset = "USDT" then
    walletSwapCore fromAsset toAsset amountFrom (amountFrom * (1 / 100)) st
  else Except.error "PAIR_NOT_SUPPORTED"

/-- `POST /v1/wallet/transfer` (src/unnamed/part_006 lines 1378-1504, core
balance/ledger mutation).  Only USDT is supported; `totalDebit` is the quote's
`total_debit_usdt` (rejected unless positive, line 1423); the balance check at
line 1437 is exact; the ledger insert at lines 1471-1483 stores `-totalDebit`
with type `transfer_out` (crypto) or `withdraw` (bank). -/
def walletTransfer (kind : String) (totalDebit : ℚ) (st : WSt) :
    Except String WSt :=
  if ¬ (0 < totalDebit) then Except.error "BAD_QUOTE"
  else if st.usdt < totalDebit then Except.error "INSUFFICIENT_FUNDS"
  else
    Except.ok { st with
      usdt := st.usdt - totalDebit,
      ledger := st.ledger ++
        [⟨"USDT", if kind = "crypto" then "transfer_out" else "withdraw",
          -totalDebit, none⟩] }

/-- A `staking_positions` row as created by stake-open. -/
structure Position where
  units : ℤ
  unit_amount_usdt : ℚ
  amount_usdt : ℚ
  cap_multiplier : ℚ
  cap_usdt : ℚ
  credited_usdt : ℚ
  status : String
deriving DecidableEq, Repr

/-- `POST /v1/staking/positions` (src/routes/staking.js lines 392-537).
`units` comes from the body (floored) or from a VPK amount divided by the
900-VPK unit; `cap_multiplier` defaults to 3 only when absent; `stakeVpk =
units * 900` is checked against the VPK balance, debited, and logged as a
positive `stake_lock` row; `cap_usdt = units * 9 * mult` with no validation
of `mult`. -/
def stakeOpen (bodyUnits bodyAmount capMultiplier : Option ℚ) (posId : ℕ)
    (st : WSt) : Except String (WSt × Position) :=
  if bodyUnits = none ∧ bodyAmount = none then Except.error "BAD_BODY"
  else
    let mult := capMultiplier.getD 3
    let units : ℤ :=
      match bodyUnits with
      | some u => ⌊u⌋
      | none => ⌊bodyAmount.getD 0 / 900⌋
    if units < 1 then Except.error "MIN_900_VPK"
    else
      let unitAmtUsdt : ℚ := 9
      let stakeUsdtVal : ℚ := units * unitAmtUsdt
      let stakeVpk : ℚ := units * 900
      let capTotalUsdt := stakeUsdtVal * mult
      if st.vpk < stakeVpk then Except.error "INSUFFICIENT_FUNDS"
      else
        Except.ok
          ({ st with
              vpk := st.vpk - stakeVpk,
              ledger := st.ledger ++
                [⟨"VPK", "stake_lock", stakeVpk, some (toString posId)⟩] },
           { units := units, unit_amount_usdt := unitAmtUsdt,
             amount_usdt := stakeUsdtVal, cap_multiplier := mult,
             cap_usdt := capTotalUsdt, credited_usdt := 0, status := "active" })

/-- The mutable part of a `staking_positions` row during airdrop payouts. -/
structure PosState where
  cap_usdt : ℚ
  credited_usdt : ℚ
  unit_amount_usdt : ℚ
  cap_multiplier : ℚ
  status : String
deriving DecidableEq, Repr

/-- One winning ticket applied to its locked position
(src/routes/staking.js lines 185-252, the body of the winners loop):
non-active positions are skipped; `creditAmt = min(perWin, max(0, cap-cred))`
and a non-positive credit is skipped; otherwise the USDT balance is credited,
`credited_usdt` becomes `LEAST(cap, cred + amt)` and the status flips to
`completed` when `cred + amt >= cap`.  Returns the new position, the new
balance, and the credited amount. -/
def applyWin (pos : PosState) (balance : ℚ) : PosState × ℚ × ℚ :=
  if pos.status ≠ "active" then (pos, balance, 0)
  else
    let capLeft := max 0 (pos.cap_usdt - pos.credited_usdt)
    let perWin := pos.unit_amount_usdt * pos.cap_multiplier
    let creditAmt := min perWin capLeft
    if creditAmt ≤ 0 then (pos, balance, 0)
    else
      ({ pos with
          credited_usdt := min pos.cap_usdt (pos.credited_usdt + creditAmt),
          status :=
            if pos.cap_usdt ≤ pos.credited_usdt + creditAmt then "completed"
            else "active" },
       balance + creditAmt, creditAmt)

/-! ## Deposit credit state machine (claim C2) -/

/-- The mutable part of a `crypto_deposits` row. -/
structure DepSt where
  asset : String
  status : String
  amount_received : Option ℚ
  confirmations : ℤ
  required_confirmations : ℤ
deriving DecidableEq, Repr

/-- World of one deposit intent: the intent row, the owner's balance in the
deposit asset, and that user's ledger rows. -/
structure DepWorld where
  dep : DepSt
  balance : ℚ
  ledger : List LRow
deriving DecidableEq, Repr

/-- Number of ledger rows with `type='deposit'` and `ref_id` equal to the
intent id (the idempotency key checked by `creditDepositAndWebhook`). -/
def depositRows (l : List LRow) (did : ℕ) : ℕ :=
  (l.filter (fun r => r.ltype == "deposit" && r.ref == some (toString did))).length

/-- `creditDepositAndWebhook` (src/bsc_watcher.js lines 82-183 and the
identical src/unnamed/part_006 lines 161-267; also the manual admin path
`POST /admin/deposits/:id/credit` and `/dev/deposits/:id/credit` which call
it): lock the intent row, no-op commit if a `('deposit', intent_id)` ledger
row exists, reject a non-positive amount (rollback), else upsert the balance,
append the ledger row and mark the intent credited.  The boolean is `true`
when the transaction committed (a skipped duplicate also commits). -/
def watcherCredit (did : ℕ) (amount : Option ℚ) (w : DepWorld) :
    DepWorld × Bool :=
  if depositRows w.ledger did ≠ 0 then (w, true)
  else
    let amtNum : ℚ :=
      match amount with
      | some a => a
      | none => w.dep.amount_received.getD 0
    if ¬ (0 < amtNum) then (w, false)
    else
      let dep1 := { w.dep with
        status := "credited",
        amount_received := some (w.dep.amount_received.getD amtNum),
        confirmations := max w.dep.confirmations w.dep.required_confirmations }
      ({ dep := dep1,
         balance := w.balance + amtNum,
         ledger := w.ledger ++ [⟨w.dep.asset, "deposit", amtNum, some (toString did)⟩] },
       true)

/-- The sweeper's credit pass (the sweeper worker appended to
src/lib/reward_credits.js, its lines 396-427): if confirmations suffice, the
status is not yet `credited` and the amount clears `MIN_DEPOSIT`, the
compare-and-set `UPDATE ... SET status='credited' WHERE id=? AND
status<>'credited'` succeeds and the balance upsert plus ledger insert run;
otherwise nothing happens. -/
def sweeperCredit (did : ℕ) (minDeposit : ℚ) (w : DepWorld) : DepWorld × Bool :=
  let enoughConfs := w.dep.required_confirmations ≤ w.dep.confirmations
  let amtNum : ℚ := w.dep.amount_received.getD 0
  let minOk : Bool := if minDeposit ≤ 0 then true else decide (minDeposit ≤ amtNum)
  if enoughConfs ∧ w.dep.status ≠ "credited" ∧ minOk = true then
    ({ dep := { w.dep with status := "credited" },
       balance := w.balance + amtNum,
       ledger := w.ledger ++ [⟨w.dep.asset, "deposit", amtNum, some (toString did)⟩] },
     true)
  else (w, true)

/-- A credit attempt against one intent, through either code path. -/
inductive CreditOp
  | watcher (amount : Option ℚ)
  | sweeper (minDeposit : ℚ)
deriving DecidableEq, Repr

def runOp (did : ℕ) (o : CreditOp) (w : DepWorld) : DepWorld × Bool :=
  match o with
  | CreditOp.watcher amount => watcherCredit did amount w
  | CreditOp.sweeper minDeposit => sweeperCredit did minDeposit w

def runOps (did : ℕ) (ops : List CreditOp) (w : DepWorld) : DepWorld :=
  ops.foldl (fun w o => (runOp did o w).1) w

/-- Invariant tying the ledger idempotency key to the intent status: at most
one deposit row for this intent, and its existence implies the intent is
`credited` (both credit paths establish them together in one transaction). -/
def DepInv (did : ℕ) (w : DepWorld) : Prop :=
  depositRows w.ledger did ≤ 1 ∧
    (1 ≤ depositRows w.ledger did → w.dep.status = "credited")

/-! ## Reward-credit claim (claim C8) -/

/-- The `reward_credits` row fields used by the claim endpoint. -/
structure RC where
  amount_usdt : ℚ
  status : String
  expired : Bool
deriving DecidableEq, Repr

structure RCWorld where
  credit : RC
  balance : ℚ
  ledger : List LRow
deriving DecidableEq, Repr

/-- Ledger `ref_id` written for a claimed reward credit
(src/unnamed/part_002 line 12). -/
def creditRefId (cid : ℕ) : String := "reward_credit:" ++ toString cid

/-- The replay check of src/unnamed/part_002 lines 112-121: a `reward_credit`
ledger row whose ref is the new format or the legacy bare numeric id. -/
def hasRewardCreditRow (l : List LRow) (cid : ℕ) : Bool :=
  l.any (fun r =>
    r.ltype == "reward_credit" &&
      (r.ref == some (creditRefId cid) || r.ref == some (toString cid)))

inductive ClaimRes
  | errRes (code : String)
  | okNew
  | okAlready
deriving DecidableEq, Repr

/-- `claimCredit` (src/unnamed/part_002 lines 54-165): lock the row; an
expired credit is flipped to `expired` and the flip is committed; a `claimed`
credit answers success idempotently; any other non-`claimable` status is an
error; a non-positive amount is an error; a replay detected via the ledger
ref check marks the row claimed without crediting; otherwise balance credit,
ledger append and status flip happen in one transaction. -/
def claimCredit (cid : ℕ) (w : RCWorld) : RCWorld × ClaimRes :=
  if w.credit.expired then
    ({ w with credit := { w.credit with status := "expired" } },
     ClaimRes.errRes "EXPIRED")
  else if w.credit.status = "claimed" then (w, ClaimRes.okAlready)
  else if w.credit.status ≠ "claimable" then (w, ClaimRes.errRes "NOT_CLAIMABLE")
  else if ¬ (0 < w.credit.amount_usdt) then (w, ClaimRes.errRes "BAD_AMOUNT")
  else if hasRewardCreditRow w.ledger cid then
    ({ w with credit := { w.credit with status := "claimed" } }, ClaimRes.okAlready)
  else
    ({ credit := { w.credit with status := "claimed" },
       balance := w.balance + w.credit.amount_usdt,
       ledger := w.ledger ++
         [⟨"USDT", "reward_credit", w.credit.amount_usdt, some (creditRefId cid)⟩] },
     ClaimRes.okNew)

/-! ## Reward-credit evaluation (claim C9, src/lib/reward_credits.js) -/

/-- Per-referred-user USDT deposit totals broken down by `crypto_deposits.source`
(the aggregates of `getReferralDepositProgress`, lines 77-137). -/
structure RefUser where
  depAny : ℚ
  depCoinsph : ℚ
  depBinance : ℚ
deriving DecidableEq, Repr

/-- The aggregates one evaluation pass reads: the owner's deposit totals by
source (`getDepositTotals`, lines 32-69) and the referred users' totals. -/
structure EvalEnv where
  depAny : ℚ
  depCoinsph : ℚ
  depBinance : ℚ
  referred : List RefUser
deriving DecidableEq, Repr

/-- Source-filtered deposit total (`any` and every unknown source fall back to
the unfiltered total, lines 193-195). -/
def depositBySource (src : String) (anyT coins binance : ℚ) : ℚ :=
  if src = "coinsph" then coins else if src = "binance" then binance else anyT

def refUserDeposit (src : String) (u : RefUser) : ℚ :=
  depositBySource src u.depAny u.depCoinsph u.depBinance

/-- `eligibleCount` of `getReferralDepositProgress` (lines 111-122): the
number of referred users whose own deposit total reaches `minUsdt`. -/
def qualifiedCount (env : EvalEnv) (src : String) (need : ℚ) : ℕ :=
  (env.referred.filter (fun u => need ≤ refUserDeposit src u)).length

/-- A `reward_credits` row with its parsed conditions
(`conditions_json` keys, lines 168-191, defaults included). -/
structure RCCond where
  status : String
  expiredNow : Bool
  depositMin : ℚ
  depositSource : String
  referralsMin : ℤ
  refereeDepositMin : ℚ
  refereeDepositSource : String
deriving DecidableEq, Repr

/-- `depositOk` of line 233: trivially true when no deposit condition. -/
def depositOkB (env : EvalEnv) (c : RCCond) : Bool :=
  if c.depositMin ≤ 0 then true
  else decide (c.depositMin ≤
    depositBySource c.depositSource env.depAny env.depCoinsph env.depBinance)

/-- `refOk` of lines 235-237: compares the QUALIFIED referral count (referred
users whose own deposit total is at least `refereeDepositMin`, default 10)
against `referralsMin`; trivially true when `referralsMin <= 0`. -/
def refOkB (env : EvalEnv) (c : RCCond) : Bool :=
  if c.referralsMin ≤ 0 then true
  else decide (c.referralsMin ≤
    (qualifiedCount env c.refereeDepositSource c.refereeDepositMin : ℤ))

/-- One credit's status recomputation inside `evaluateRewardCreditsForUser`
(lines 139-281).  The SQL only selects non-expired credits whose status is
`locked` or `claimable` (lines 142-150); both conditions holding yields
`claimable`, otherwise `locked` (the demotion fix of lines 258-270). -/
def evalCredit (env : EvalEnv) (c : RCCond) : RCCond :=
  if ¬ (c.status = "locked" ∨ c.status = "claimable") then c
  else if c.expiredNow then c
  else if depositOkB env c && refOkB env c then { c with status := "claimable" }
  else { c with status := "locked" }

/-- The whole per-user pass over that user's credits. -/
def evaluateRewardCreditsForUser (env : EvalEnv) (credits : List RCCond) :
    List RCCond :=
  credits.map (evalCredit env)

/-! ## Referral commission shares (claim C6, src/unnamed/part_005) -/

def LVL1_SHARE : ℚ := 45 / 10
def LVL2_SHARE : ℚ := 25 / 10
def LVL3_SHARE : ℚ := 15 / 10
def COMPANY_SHARE : ℚ := 15 / 10
def TOTAL_SHARE : ℚ := LVL1_SHARE + LVL2_SHARE + LVL3_SHARE + COMPANY_SHARE

/-- JavaScript `Math.round` on the embedded rationals. -/
def jsRound (q : ℚ) : ℤ := ⌊q + 1 / 2⌋

/-- Rounding unit of `calcShare` (part_005 lines 203-207): 2 decimal places
for PHP, 8 for everything else. -/
def ulp (asset : String) : ℚ :=
  if asset = "PHP" then 1 / 100 else 1 / 100000000

/-- `calcShare` (part_005 lines 203-207): `raw = pool * (weight /
totalEffectiveWeight)` rounded to the asset's precision. -/
def calcShare (asset : String) (pool totalW w : ℚ) : ℚ :=
  (jsRound (pool * (w / totalW) / ulp asset) : ℚ) * ulp asset

/-- The effective weight table of `awardReferral` (part_005 lines 181-197):
present levels keep their nominal share, and when a company recipient is
configured it absorbs every absent level's nominal share. -/
def effWeights (lvl1 lvl2 lvl3 company : Bool) : List (String × ℚ) :=
  (if lvl1 then [("lvl1", LVL1_SHARE)] else []) ++
  (if lvl2 then [("lvl2", LVL2_SHARE)] else []) ++
  (if lvl3 then [("lvl3", LVL3_SHARE)] else []) ++
  (if company then
    [("company", COMPANY_SHARE +
      (if lvl1 then 0 else LVL1_SHARE) +
      (if lvl2 then 0 else LVL2_SHARE) +
      (if lvl3 then 0 else LVL3_SHARE))]
   else [])

/-- The beneficiary rows `awardReferral` builds (part_005 lines 213-253):
one event per effective weight whose rounded share is positive. -/
def awardEvents (lvl1 lvl2 lvl3 company : Bool) (asset : String) (pool : ℚ) :
    List (String × ℚ) :=
  let ws := effWeights lvl1 lvl2 lvl3 company
  let totalW := (ws.map Prod.snd).sum
  ws.filterMap (fun lw =>
    let c := calcShare asset pool totalW lw.2
    if 0 < c then some (lw.1, c) else none)

/-! ## Airdrop cohorts and winner selection (claim C7, src/routes/staking.js) -/

def AIRDROP_TRIGGER_UNITS : ℤ := 60
def AIRDROP_REWARD_UNITS : ℕ := 6
def OLD_PICK : ℕ := 6
def NEW_PICK : ℕ := 4

/-- One airdrop ticket (staking.js lines 100-101). -/
structure Ticket where
  position_id : ℕ
  user_id : ℕ
deriving DecidableEq, Repr

/-- A `staking_positions` row as scanned by `buildCohortsConsumed`. -/
structure PosRow where
  id : ℕ
  user_id : ℕ
  units : ℤ
  cap_usdt : ℚ
  credited_usdt : ℚ
  unit_amount_usdt : ℚ
  cap_multiplier : ℚ
  status : String
deriving DecidableEq, Repr

/-- Unconsumed ticket capacity of a position (staking.js lines 84-87):
`max(0, min(units, floor((cap - cred) / perUnitCap)))`. -/
def unconsumedUnits (r : PosRow) : ℤ :=
  max 0 (min r.units
    ⌊(r.cap_usdt - r.credited_usdt) / (r.unit_amount_usdt * r.cap_multiplier)⌋)

/-- The loop body of `buildCohortsConsumed` (staking.js lines 67-102) on the
accumulator `(globalIdx, oldTickets, newTickets)`: advance the global unit
range, skip inactive or capacity-exhausted positions, intersect the range
with the old window `(0, prevUnits]` and new window `(prevUnits, prevUnits +
60]`, and emit one ticket per still-unconsumed unit of each overlap. -/
def cohortStep (prevUnits : ℤ) (acc : ℤ × List Ticket × List Ticket)
    (r : PosRow) : ℤ × List Ticket × List Ticket :=
  let g := acc.1
  let olds := acc.2.1
  let news := acc.2.2
  if r.units ≤ 0 then (g, olds, news)
  else
    let start := g + 1
    let stop := g + r.units
    if r.status ≠ "active" then (stop, olds, news)
    else if unconsumedUnits r ≤ 0 then (stop, olds, news)
    else
      let oldOverlap := max 0 (min stop prevUnits - start + 1)
      let newOverlap :=
        max 0 (min stop (prevUnits + AIRDROP_TRIGGER_UNITS) -
          max start (prevUnits + 1) + 1)
      if oldOverlap + newOverlap ≤ 0 then (stop, olds, news)
      else
        let oldShare := min oldOverlap (unconsumedUnits r)
        let newShare := min newOverlap (unconsumedUnits r - oldShare)
        (stop,
         olds ++ List.replicate oldShare.toNat ⟨r.id, r.user_id⟩,
         news ++ List.replicate newShare.toNat ⟨r.id, r.user_id⟩)

/-- `buildCohortsConsumed` (staking.js lines 53-105): positions in creation
order, returning `(oldTickets, newTickets)`. -/
def buildCohortsConsumed (rows : List PosRow) (prevUnits : ℤ) :
    List Ticket × List Ticket :=
  (rows.foldl (cohortStep prevUnits) (0, [], [])).2

/-- The draw loop of `pickWithoutReplacement` (staking.js lines 42-46), with
the stream of `crypto.randomInt` results abstracted as an oracle `g`; index
`g step % bag.length` is exactly the in-range value `randi(bag.length)`
produces.  Recursion is on the remaining pick count. -/
def pickGo {α : Type} (g : ℕ → ℕ) : ℕ → List α → ℕ → List α
  | _, _, 0 => []
  | step, bag, k + 1 =>
    if h : bag.length = 0 then []
    else
      let idx := g step % bag.length
      bag.get ⟨idx, Nat.mod_lt _ (Nat.pos_of_ne_zero h)⟩ ::
        pickGo g (step + 1) (bag.eraseIdx idx) k

/-- `pickWithoutReplacement` (staking.js lines 37-48). -/
def pickWithoutReplacement {α : Type} (g : ℕ → ℕ) (arr : List α) (k : ℕ) :
    List α :=
  if k = 0 ∨ arr.length = 0 then []
  else if arr.length ≤ k then arr
  else pickGo g 0 arr k

/-- The per-round winner selection of `triggerAirdropsIfNeeded`
(staking.js lines 155-169): up to `NEW_PICK` winners from the new pool, the
old pool filtered to exclude users already drawn, then up to `OLD_PICK` more
bounded by the `AIRDROP_REWARD_UNITS` total.  Returns
`(oldWinners, newWinners)`. -/
def selectWinners (g1 g2 : ℕ → ℕ) (oldTickets newTickets : List Ticket) :
    List Ticket × List Ticket :=
  let maxWinners := AIRDROP_REWARD_UNITS
  let newPick := min NEW_PICK (min maxWinners newTickets.length)
  let newWinners :=
    if 0 < newPick then pickWithoutReplacement g1 newTickets newPick else []
  let newWinnerUserIds := newWinners.map (fun t => t.user_id)
  let oldFiltered :=
    if newWinnerUserIds = [] then oldTickets
    else oldTickets.filter (fun t => !(newWinnerUserIds.contains t.user_id))
  let remaining := maxWinners - newWinners.length
  let oldPick := min OLD_PICK (min remaining oldFiltered.length)
  let oldWinners :=
    if 0 < oldPick then pickWithoutReplacement g2 oldFiltered oldPick else []
  (oldWinners, newWinners)

/-- A ticket is sound when it comes from an active position of the scanned
rows whose unconsumed capacity `floor((cap - cred)/perUnitPayout)` is
positive. -/
def GoodTicket (rows : List PosRow) (t : Ticket) : Prop :=
  ∃ r ∈ rows, r.id = t.position_id ∧ r.user_id = t.user_id ∧
    r.status = "active" ∧
    0 < ⌊(r.cap_usdt - r.credited_usdt) /
        (r.unit_amount_usdt * r.cap_multiplier)⌋

/-! ## Theorems -/

/-- Claim C1 (code bug at the transfer endpoint): starting from a state where
the `wallet_balances` projection agrees with the signed ledger sum (one
credited deposit of 5 USDT), a committed transfer with `total_debit = 1`
moves the projection to 4 but the signed ledger sum to 6, because the
endpoint stores `-1` in a MINUS-classified row; the claimed projection
invariant `balance = signed sum` is violated by the code. -/
theorem transfer_breaks_projection_invariant :
    (WSt.mk 5 0 [⟨"USDT", "deposit", 5, some "1"⟩]).usdt =
      signedSum [⟨"USDT", "deposit", 5, some "1"⟩] "USDT" ∧
    walletTransfer "crypto" 1 ⟨5, 0, [⟨"USDT", "deposit", 5, some "1"⟩]⟩ =
      Except.ok ⟨4, 0, [⟨"USDT", "deposit", 5, some "1"⟩,
        ⟨"USDT", "transfer_out", -1, none⟩]⟩ ∧
    signedSum [⟨"USDT", "deposit", 5, some "1"⟩,
      ⟨"USDT", "transfer_out", -1, none⟩] "USDT" = 6 ∧
    (4 : ℚ) ≠ 6 := by
  refine ⟨?_, ?_, ?_, by norm_num⟩
  · simp [signedSum, signedAmount, PLUS, MINUS]
  · simp only [walletTransfer]
    norm_num
  · simp [signedSum, signedAmount, PLUS, MINUS]
    norm_num

/-- Claim C4 (code bug at the transfer endpoint): the wallet-transfer ledger
insert stores the NEGATIVE total debit (`-totalDebit`, part_006 line 1480)
in a row whose type is in the MINUS set, contradicting the claimed (and
elsewhere enforced, cf. staking.js line 478) positive-magnitude convention:
with `total_debit = 1` the committed row has amount `-1 < 0`. -/
theorem transfer_stores_negative_ledger_amount :
    walletTransfer "crypto" 1 ⟨5, 0, []⟩ =
      Except.ok ⟨4, 0, [⟨"USDT", "transfer_out", -1, none⟩]⟩ ∧
    ¬ (0 < (-1 : ℚ)) ∧ "transfer_out" ∈ MINUS := by
  refine ⟨?_, by norm_num, by simp [MINUS]⟩
  simp only [walletTransfer]
  norm_num

/-- Claim C5, counterexample: the swap balance check tolerates a `1e-9`
shortfall, so a swap of 1 USDT commits from a balance of `1 - 5e-10` and
leaves the debited USDT balance strictly negative. -/
theorem swap_commits_with_negative_balance :
    walletSwap "USDT" "VPK" 1 ⟨1 - 1 / 2000000000, 0, []⟩ =
      Except.ok ⟨-(1 / 2000000000), 100,
        [⟨"USDT", "swap_out", 1, none⟩, ⟨"VPK", "swap_in", 100, none⟩]⟩ ∧
    (-(1 / 2000000000) : ℚ) < 0 := by
  constructor
  · simp [walletSwap, walletSwapCore, getBal, addBal]
    norm_num
  · norm_num

/-- Claim C5 as amended: every committed stake-open or transfer leaves the
debited balance non-negative (their pre-debit checks are exact), while a
committed swap only guarantees the debited balance is at least `-1e-9`
(its check allows a `1e-9` shortfall); a failed check aborts the transaction
with `INSUFFICIENT_FUNDS` and no mutation (the error branch carries no
state). -/
theorem debits_bounded_by_predebit_checks
    (st : WSt) (kind : String) (td : ℚ) (bu ba cm : Option ℚ) (pid : ℕ)
    (fa ta : String) (amt : ℚ) :
    (∀ st1, walletTransfer kind td st = Except.ok st1 → 0 ≤ st1.usdt) ∧
    (∀ st1 p, stakeOpen bu ba cm pid st = Except.ok (st1, p) → 0 ≤ st1.vpk) ∧
    (∀ st1, walletSwap fa ta amt st = Except.ok st1 →
      -(1 / 1000000000) ≤ getBal st1 fa) := by
  refine ⟨?_, ?_, ?_⟩
  · intro st1 h
    rw [walletTransfer] at h
    split_ifs at h with h1 h2 h3 <;>
      (injection h with h; subst h; simp; linarith [not_lt.mp h2])
  · intro st1 p h
    simp only [stakeOpen] at h
    split_ifs at h with h1 h2 h3
    injection h with h
    injection h with ha hb
    subst ha
    simp
    linarith [not_lt.mp h3]
  · intro st1 h
    rw [walletSwap] at h
    split_ifs at h with h1 h2 h3
    · obtain ⟨rfl, rfl⟩ := h2
      simp only [walletSwapCore, getBal, addBal] at h
      simp at h
      split_ifs at h with h4
      cases h
      push_neg at h4
      simp [getBal]
      linarith
    · obtain ⟨rfl, rfl⟩ := h3
      simp only [walletSwapCore, getBal, addBal] at h
      simp at h
      split_ifs at h with h4
      cases h
      push_neg at h4
      simp [getBal]
      linarith

/-- Witness for the amended C5 theorem: a transfer of 1 from a balance of 5
commits and leaves the non-negative balance 4. -/
theorem debits_bounded_by_predebit_checks_witness :
    0 ≤ (WSt.mk 4 0 [⟨"USDT", "transfer_out", -1, none⟩]).usdt :=
  (debits_bounded_by_predebit_checks ⟨5, 0, []⟩ "crypto" 1 none none none 0
      "USDT" "VPK" 1).1
    ⟨4, 0, [⟨"USDT", "transfer_out", -1, none⟩]⟩
    (by simp only [walletTransfer]; norm_num)

/-- Claim C3: across airdrop payouts a position's `credited_usdt` is
monotonically non-decreasing and never exceeds `cap_usdt`; a payout that
takes `credited_usdt` to `cap_usdt` flips the status to `completed`; and a
winning draw against a `completed` or capacity-exhausted position credits 0
and changes nothing. -/
theorem airdrop_credit_cap_invariants (pos : PosState) (bal : ℚ)
    (hcc : pos.credited_usdt ≤ pos.cap_usdt) :
    pos.credited_usdt ≤ (applyWin pos bal).1.credited_usdt ∧
    (applyWin pos bal).1.credited_usdt ≤ pos.cap_usdt ∧
    (pos.credited_usdt < pos.cap_usdt →
      (applyWin pos bal).1.credited_usdt = pos.cap_usdt →
      (applyWin pos bal).1.status = "completed") ∧
    (pos.status = "completed" → applyWin pos bal = (pos, bal, 0)) ∧
    (pos.cap_usdt ≤ pos.credited_usdt → applyWin pos bal = (pos, bal, 0)) := by
  simp only [applyWin]
  split_ifs with h1 h2 h3
  · exact ⟨le_rfl, hcc, fun hlt heq => absurd heq (ne_of_lt hlt),
      fun _ => rfl, fun _ => rfl⟩
  · exact ⟨le_rfl, hcc, fun hlt heq => absurd heq (ne_of_lt hlt),
      fun _ => rfl, fun _ => rfl⟩
  · push_neg at h2
    refine ⟨le_min hcc (by linarith), min_le_left _ _, fun _ _ => rfl, ?_, ?_⟩
    · intro hcompl
      rw [not_ne_iff] at h1
      rw [h1] at hcompl
      exact absurd hcompl (by decide)
    · intro hge
      exfalso
      have h5 : max 0 (pos.cap_usdt - pos.credited_usdt) ≤ 0 :=
        max_le le_rfl (sub_nonpos.mpr hge)
      have h6 := min_le_right (pos.unit_amount_usdt * pos.cap_multiplier)
        (max 0 (pos.cap_usdt - pos.credited_usdt))
      linarith
  · push_neg at h2
    refine ⟨le_min hcc (by linarith), min_le_left _ _, ?_, ?_, ?_⟩
    · intro hlt heq
      exfalso
      rw [min_eq_right (le_of_lt (not_le.mp h3))] at heq
      exact absurd heq (by intro hh; exact h3 (le_of_eq hh.symm))
    · intro hcompl
      rw [not_ne_iff] at h1
      rw [h1] at hcompl
      exact absurd hcompl (by decide)
    · intro hge
      exfalso
      have h5 : max 0 (pos.cap_usdt - pos.credited_usdt) ≤ 0 :=
        max_le le_rfl (sub_nonpos.mpr hge)
      have h6 := min_le_right (pos.unit_amount_usdt * pos.cap_multiplier)
        (max 0 (pos.cap_usdt - pos.credited_usdt))
      linarith

/-- Witness for C3: the 10-unit, multiplier-3 position of the spec scenario
(`cap_usdt = 270`, nothing credited yet) satisfies the invariants after a
winning draw. -/
theorem airdrop_credit_cap_invariants_witness :
    (PosState.mk 270 0 9 3 "active").credited_usdt ≤
      (applyWin ⟨270, 0, 9, 3, "active"⟩ 0).1.credited_usdt ∧
    (applyWin ⟨270, 0, 9, 3, "active"⟩ 0).1.credited_usdt ≤ 270 :=
  ⟨(airdrop_credit_cap_invariants ⟨270, 0, 9, 3, "active"⟩ 0 (by norm_num)).1,
   (airdrop_credit_cap_invariants ⟨270, 0, 9, 3, "active"⟩ 0 (by norm_num)).2.1⟩

/-- Claim C10 (implicit): the stake-open endpoint uses an arbitrary
caller-supplied `cap_multiplier` `m` without any validation — the created
position has `cap_usdt = units * 9 * m` for EVERY rational `m` — and the
default multiplier 3 is applied only when the field is absent. -/
theorem stake_cap_multiplier_unvalidated (m u : ℚ) (pid : ℕ) (st : WSt)
    (hu : 1 ≤ ⌊u⌋) (hbal : (⌊u⌋ : ℚ) * 900 ≤ st.vpk) :
    stakeOpen (some u) none (some m) pid st =
      Except.ok
        (⟨st.usdt, st.vpk - (⌊u⌋ : ℚ) * 900,
          st.ledger ++
            [⟨"VPK", "stake_lock", (⌊u⌋ : ℚ) * 900, some (toString pid)⟩]⟩,
         ⟨⌊u⌋, 9, (⌊u⌋ : ℚ) * 9, m, (⌊u⌋ : ℚ) * 9 * m, 0, "active"⟩) ∧
    (∀ st1 p, stakeOpen (some u) none none pid st = Except.ok (st1, p) →
      p.cap_multiplier = 3 ∧ p.cap_usdt = (⌊u⌋ : ℚ) * 9 * 3) := by
  constructor
  · simp only [stakeOpen, Option.getD_some]
    rw [if_neg (by simp), if_neg (not_lt.mpr hu), if_neg (not_lt.mpr hbal)]
  · intro st1 p h
    simp only [stakeOpen] at h
    rw [if_neg (by simp), if_neg (not_lt.mpr hu)] at h
    rw [if_neg (not_lt.mpr (by simpa using hbal))] at h
    injection h with h
    injection h with ha hb
    subst hb
    exact ⟨rfl, rfl⟩

/-- Witness for C10: with one unit and caller-chosen `cap_multiplier = 0`
the committed position has `cap_usdt = 0` (the caller set their own cap and
no check rejected it). -/
theorem stake_cap_multiplier_unvalidated_witness :
    stakeOpen (some 1) none (some 0) 7 ⟨0, 900, []⟩ =
      Except.ok
        (⟨(0 : ℚ), 900 - (⌊(1 : ℚ)⌋ : ℚ) * 900,
          [] ++ [⟨"VPK", "stake_lock", (⌊(1 : ℚ)⌋ : ℚ) * 900, some (toString 7)⟩]⟩,
         ⟨⌊(1 : ℚ)⌋, 9, (⌊(1 : ℚ)⌋ : ℚ) * 9, 0, (⌊(1 : ℚ)⌋ : ℚ) * 9 * 0, 0,
          "active"⟩) :=
  (stake_cap_multiplier_unvalidated 0 1 7 ⟨0, 900, []⟩ (by simp)
    (by simp [Int.floor_one])).1

/-- Claim C8: claiming the same RewardCredit twice credits the balance
exactly once.  The first conjunct is unconditional: a second claim applied to
the result of any claim changes neither balance nor ledger.  A claim answers
`okNew` only from a non-expired `claimable` credit with positive amount and
no existing ledger row, and then performs balance credit, ledger append and
status flip together; a replay detected through the ledger ref check (new or
legacy format) flips the status and answers success without crediting. -/
theorem reward_credit_claimed_exactly_once (cid : ℕ) (w : RCWorld) :
    ((claimCredit cid (claimCredit cid w).1).1.balance =
        (claimCredit cid w).1.balance ∧
      (claimCredit cid (claimCredit cid w).1).1.ledger =
        (claimCredit cid w).1.ledger) ∧
    ((claimCredit cid w).2 = ClaimRes.okNew →
      w.credit.status = "claimable" ∧ w.credit.expired = false ∧
      0 < w.credit.amount_usdt ∧ hasRewardCreditRow w.ledger cid = false ∧
      (claimCredit cid w).1.balance = w.balance + w.credit.amount_usdt ∧
      (claimCredit cid w).1.credit.status = "claimed" ∧
      (claimCredit cid w).1.ledger = w.ledger ++
        [⟨"USDT", "reward_credit", w.credit.amount_usdt, some (creditRefId cid)⟩]) ∧
    (w.credit.status = "claimable" → w.credit.expired = false →
      0 < w.credit.amount_usdt → hasRewardCreditRow w.ledger cid = true →
      (claimCredit cid w).1.balance = w.balance ∧
      (claimCredit cid w).1.ledger = w.ledger ∧
      (claimCredit cid w).1.credit.status = "claimed" ∧
      (claimCredit cid w).2 = ClaimRes.okAlready) := by
  refine ⟨?_, ?_, ?_⟩
  · by_cases he : w.credit.expired
    · simp [claimCredit, he]
    · by_cases hcl : w.credit.status = "claimed"
      · simp [claimCredit, he, hcl]
      · by_cases hca : w.credit.status = "claimable"
        · by_cases ha : 0 < w.credit.amount_usdt
          · by_cases hr : hasRewardCreditRow w.ledger cid
            · simp [claimCredit, he, hcl, hca, ha, hr]
            · simp [claimCredit, he, hcl, hca, ha, hr]
          · simp [claimCredit, he, hcl, hca, ha]
        · simp [claimCredit, he, hcl, hca]
  · intro hok
    by_cases he : w.credit.expired
    · simp [claimCredit, he] at hok
    · by_cases hcl : w.credit.status = "claimed"
      · simp [claimCredit, he, hcl] at hok
      · by_cases hca : w.credit.status = "claimable"
        · by_cases ha : 0 < w.credit.amount_usdt
          · by_cases hr : hasRewardCreditRow w.ledger cid
            · simp [claimCredit, he, hcl, hca, ha, hr] at hok
            · simp [claimCredit, he, hcl, hca, ha, hr]
          · simp [claimCredit, he, hcl, hca, ha] at hok
        · simp [claimCredit, he, hcl, hca] at hok
  · intro hca he ha hr
    simp [claimCredit, he, hca, hr, not_le.mpr ha]

/-- Witness for C8: a fresh claimable 5-USDT credit is claimed successfully,
crediting the balance from 0 to 5. -/
theorem reward_credit_claimed_exactly_once_witness :
    (claimCredit 3 ⟨⟨5, "claimable", false⟩, 0, []⟩).1.balance =
      (0 : ℚ) + (RC.mk 5 "claimable" false).amount_usdt :=
  ((reward_credit_claimed_exactly_once 3
      ⟨⟨5, "claimable", false⟩, 0, []⟩).2.1 (by decide)).2.2.2.2.1

/-- Claim C9: the evaluation pass never changes a `claimed` credit, is
idempotent on unchanged data (per credit and over the whole pass), and for a
non-expired `locked`/`claimable` credit yields `claimable` exactly when the
deposit-total condition and the qualified-referral condition (count of
referred users with own deposit total at least the referee threshold) both
hold, demoting to `locked` otherwise. -/
theorem reward_credit_evaluation_correct (env : EvalEnv) (c : RCCond)
    (cs : List RCCond) :
    (c.status = "claimed" → evalCredit env c = c) ∧
    (evalCredit env (evalCredit env c) = evalCredit env c) ∧
    (evaluateRewardCreditsForUser env (evaluateRewardCreditsForUser env cs) =
      evaluateRewardCreditsForUser env cs) ∧
    ((c.status = "locked" ∨ c.status = "claimable") → c.expiredNow = false →
      (((evalCredit env c).status = "claimable" ↔
          (depositOkB env c && refOkB env c) = true) ∧
        ((evalCredit env c).status = "locked" ↔
          ¬ (depositOkB env c && refOkB env c) = true))) := by
  have hpt : ∀ d : RCCond, evalCredit env (evalCredit env d) = evalCredit env d := by
    intro d
    by_cases hs : d.status = "locked" ∨ d.status = "claimable"
    · by_cases hx : d.expiredNow
      · simp [evalCredit, hs, hx]
      · by_cases hcond : (depositOkB env d && refOkB env d) = true
        · have h1 : evalCredit env d = { d with status := "claimable" } := by
            simp [evalCredit, hs, hx, hcond]
          rw [h1]
          simp [evalCredit, hx]
          rw [Bool.and_eq_true] at hcond
          exact ⟨hcond.1, hcond.2⟩
        · have h1 : evalCredit env d = { d with status := "locked" } := by
            simp [evalCredit, hs, hx, hcond]
          rw [h1]
          simp [evalCredit, hx]
          intro h2
          cases hre : refOkB env d with
          | false => exact hre
          | true => exact absurd (Bool.and_eq_true _ _ |>.mpr ⟨h2, hre⟩) hcond
    · simp [evalCredit, hs]
  refine ⟨?_, hpt c, ?_, ?_⟩
  · intro hcl
    simp [evalCredit, hcl]
  · simp only [evaluateRewardCreditsForUser, List.map_map]
    exact List.map_congr_left (fun d _ => hpt d)
  · intro hs hx
    by_cases hcond : (depositOkB env c && refOkB env c) = true
    · simp [evalCredit, hs, hx, hcond]
    · simp [evalCredit, hs, hx, hcond]

/-- Witness for C9 on the spec scenario: a locked credit requiring 2
qualified referrals (referee deposit at least 10) stays `locked` while only
one referred user deposited 10+, and flips to `claimable` once a second
crosses the threshold. -/
theorem reward_credit_evaluation_correct_witness :
    (evalCredit ⟨0, 0, 0, [⟨15, 0, 0⟩, ⟨5, 0, 0⟩]⟩
        ⟨"locked", false, 0, "any", 2, 10, "any"⟩).status = "locked" ∧
    (evalCredit ⟨0, 0, 0, [⟨15, 0, 0⟩, ⟨12, 0, 0⟩]⟩
        ⟨"locked", false, 0, "any", 2, 10, "any"⟩).status = "claimable" :=
  ⟨((reward_credit_evaluation_correct ⟨0, 0, 0, [⟨15, 0, 0⟩, ⟨5, 0, 0⟩]⟩
        ⟨"locked", false, 0, "any", 2, 10, "any"⟩ []).2.2.2 (Or.inl rfl)
      rfl).2.mpr (by decide),
   ((reward_credit_evaluation_correct ⟨0, 0, 0, [⟨15, 0, 0⟩, ⟨12, 0, 0⟩]⟩
        ⟨"locked", false, 0, "any", 2, 10, "any"⟩ []).2.2.2 (Or.inl rfl)
      rfl).1.mpr (by decide)⟩

lemma depositRows_append_hit (l : List LRow) (did : ℕ) (a : String) (amt : ℚ) :
    depositRows (l ++ [⟨a, "deposit", amt, some (toString did)⟩]) did =
      depositRows l did + 1 := by
  simp [depositRows, List.filter_append]

lemma runOp_preserves_inv (did : ℕ) (o : CreditOp) (w : DepWorld)
    (h : DepInv did w) : DepInv did (runOp did o w).1 := by
  obtain ⟨h1, h2⟩ := h
  have hzero : w.dep.status ≠ "credited" → depositRows w.ledger did = 0 := by
    intro hnc
    by_contra hnz
    exact hnc (h2 (Nat.one_le_iff_ne_zero.mpr hnz))
  cases o with
  | watcher amount =>
    simp only [runOp, watcherCredit]
    split_ifs with ha hb
    · exact ⟨h1, h2⟩
    · rw [not_ne_iff] at ha
      refine ⟨?_, fun _ => rfl⟩
      show depositRows (w.ledger ++ _) did ≤ 1
      rw [depositRows_append_hit, ha]
    · exact ⟨h1, h2⟩
  | sweeper minDeposit =>
    simp only [runOp, sweeperCredit]
    split_ifs with ha hb hc
    · refine ⟨?_, fun _ => rfl⟩
      show depositRows (w.ledger ++ _) did ≤ 1
      rw [depositRows_append_hit, hzero hb.2.1]
    · exact ⟨h1, h2⟩
    · refine ⟨?_, fun _ => rfl⟩
      show depositRows (w.ledger ++ _) did ≤ 1
      rw [depositRows_append_hit, hzero hc.2.1]
    · exact ⟨h1, h2⟩

lemma runOp_noop_when_credited (did : ℕ) (o : CreditOp) (w : DepWorld)
    (h : DepInv did w) (hr : 1 ≤ depositRows w.ledger did) :
    runOp did o w = (w, true) := by
  cases o with
  | watcher amount =>
    simp only [runOp, watcherCredit]
    rw [if_pos (Nat.one_le_iff_ne_zero.mp hr)]
  | sweeper minDeposit =>
    simp only [runOp, sweeperCredit]
    rw [if_neg (fun hp => hp.2.1 (h.2 hr))]

/-- Claim C2: across any sequence of deposit-credit attempts through any of
the code paths (chain-watcher / manual admin credit, which share
`creditDepositAndWebhook`, and the sweeper's credit pass), at most one
`('deposit', intent_id)` ledger row ever exists, and once one exists every
further attempt commits as a no-op success (`(w, true)`), leaving balance,
ledger and intent unchanged.  `DepInv` holds for a fresh intent (no ledger
row) and is preserved by every attempt. -/
theorem deposit_credit_applied_at_most_once (did : ℕ) (ops : List CreditOp)
    (w : DepWorld) (hinv : DepInv did w) :
    DepInv did (runOps did ops w) ∧
    depositRows (runOps did ops w).ledger did ≤ 1 ∧
    (∀ o w1, DepInv did w1 → 1 ≤ depositRows w1.ledger did →
      runOp did o w1 = (w1, true)) := by
  have hfold : DepInv did (runOps did ops w) := by
    induction ops generalizing w with
    | nil => exact hinv
    | cons o rest ih =>
      exact ih (runOp did o w).1 (runOp_preserves_inv did o w hinv)
  exact ⟨hfold, hfold.1,
    fun o w1 h1 h2 => runOp_noop_when_credited did o w1 h1 h2⟩

/-- Witness for C2: a confirmed 5-USDT intent credited by the watcher and
then hit again by the sweeper ends with at most one deposit ledger row. -/
theorem deposit_credit_applied_at_most_once_witness :
    depositRows
      (runOps 7 [CreditOp.watcher (some 5), CreditOp.sweeper 0]
        ⟨⟨"USDT", "confirming", some 5, 12, 12⟩, 0, []⟩).ledger 7 ≤ 1 :=
  (deposit_credit_applied_at_most_once 7
    [CreditOp.watcher (some 5), CreditOp.sweeper 0]
    ⟨⟨"USDT", "confirming", some 5, 12, 12⟩, 0, []⟩
    ⟨by decide, fun h => absurd h (by decide)⟩).2.1

lemma ulp_pos (asset : String) : 0 < ulp asset := by
  unfold ulp
  split_ifs <;> norm_num

lemma abs_jsRound_sub (q : ℚ) : |(jsRound q : ℚ) - q| ≤ 1 / 2 := by
  rw [jsRound, ← round_eq, abs_sub_comm]
  exact abs_sub_round q

lemma abs_calcShare_sub (asset : String) (pool totalW w : ℚ) :
    |calcShare asset pool totalW w - pool * (w / totalW)| ≤ ulp asset / 2 := by
  have hu := ulp_pos asset
  have hne : ulp asset ≠ 0 := ne_of_gt hu
  rw [calcShare]
  have h1 : |(jsRound (pool * (w / totalW) / ulp asset) : ℚ) -
      pool * (w / totalW) / ulp asset| ≤ 1 / 2 := abs_jsRound_sub _
  have key : (jsRound (pool * (w / totalW) / ulp asset) : ℚ) * ulp asset -
      pool * (w / totalW) =
      ((jsRound (pool * (w / totalW) / ulp asset) : ℚ) -
        pool * (w / totalW) / ulp asset) * ulp asset := by
    rw [sub_mul, div_mul_cancel₀ _ hne]
  rw [key, abs_mul, abs_of_pos hu]
  calc |(jsRound (pool * (w / totalW) / ulp asset) : ℚ) -
        pool * (w / totalW) / ulp asset| * ulp asset
      ≤ 1 / 2 * ulp asset := mul_le_mul_of_nonneg_right h1 (le_of_lt hu)
    _ = ulp asset / 2 := by ring

lemma calcShare_nonpos_raw_small (asset : String) (pool totalW w : ℚ)
    (hc : calcShare asset pool totalW w ≤ 0) :
    pool * (w / totalW) ≤ ulp asset / 2 := by
  have hu := ulp_pos asset
  have hne : ulp asset ≠ 0 := ne_of_gt hu
  rw [calcShare] at hc
  have hz : (jsRound (pool * (w / totalW) / ulp asset) : ℚ) ≤ 0 := by
    by_contra hpos
    push_neg at hpos
    have h1 : (1 : ℚ) ≤ (jsRound (pool * (w / totalW) / ulp asset) : ℚ) := by
      have h0 : (1 : ℤ) ≤ jsRound (pool * (w / totalW) / ulp asset) := by
        exact_mod_cast hpos
      exact_mod_cast h0
    nlinarith
  have h3 : (⌊pool * (w / totalW) / ulp asset + 1 / 2⌋ : ℚ) ≤ 0 := by
    rw [jsRound] at hz
    exact_mod_cast hz
  have h2 := Int.lt_floor_add_one (pool * (w / totalW) / ulp asset + 1 / 2)
  have h4 : pool * (w / totalW) / ulp asset < 1 / 2 := by linarith
  have h5 : pool * (w / totalW) / ulp asset * ulp asset = pool * (w / totalW) :=
    div_mul_cancel₀ _ hne
  calc pool * (w / totalW) = pool * (w / totalW) / ulp asset * ulp asset := h5.symm
    _ ≤ 1 / 2 * ulp asset := mul_le_mul_of_nonneg_right (le_of_lt h4) (le_of_lt hu)
    _ = ulp asset / 2 := by ring

lemma awardEvents_sum_close (asset : String) (pool totalW : ℚ)
    (hpool : 0 < pool) (hW : 0 < totalW) (l : List (String × ℚ))
    (hw : ∀ p ∈ l, 0 < p.2) :
    |((l.filterMap (fun lw =>
        let c := calcShare asset pool totalW lw.2
        if 0 < c then some (lw.1, c) else none)).map Prod.snd).sum -
      pool / totalW * (l.map Prod.snd).sum| ≤ l.length * (ulp asset / 2) := by
  induction l with
  | nil => simp
  | cons hd tl ih =>
    have hhd : 0 < hd.2 := hw hd (List.mem_cons_self _ _)
    have htl : ∀ p ∈ tl, 0 < p.2 := fun p hp => hw p (List.mem_cons_of_mem _ hp)
    have hih := ih htl
    have hraw : 0 < pool / totalW * hd.2 :=
      mul_pos (div_pos hpool hW) hhd
    have hhead : |(if 0 < calcShare asset pool totalW hd.2 then
        calcShare asset pool totalW hd.2 else 0) - pool / totalW * hd.2| ≤
        ulp asset / 2 := by
      split_ifs with hc
      · have h6 := abs_calcShare_sub asset pool totalW hd.2
        rw [show pool * (hd.2 / totalW) = pool / totalW * hd.2 by ring] at h6
        exact h6
      · push_neg at hc
        have h7 := calcShare_nonpos_raw_small asset pool totalW hd.2 hc
        rw [show pool * (hd.2 / totalW) = pool / totalW * hd.2 by ring] at h7
        rw [abs_sub_comm, sub_zero, abs_of_pos hraw]
        exact h7
    have hsplit : ((List.filterMap (fun lw =>
        let c := calcShare asset pool totalW lw.2
        if 0 < c then some (lw.1, c) else none) (hd :: tl)).map Prod.snd).sum =
        (if 0 < calcShare asset pool totalW hd.2 then
          calcShare asset pool totalW hd.2 else 0) +
        ((List.filterMap (fun lw =>
          let c := calcShare asset pool totalW lw.2
          if 0 < c then some (lw.1, c) else none) tl).map Prod.snd).sum := by
      by_cases hc : 0 < calcShare asset pool totalW hd.2
      · simp [List.filterMap_cons, hc]
      · simp [List.filterMap_cons, hc]
    rw [hsplit]
    simp only [List.map_cons, List.sum_cons, List.length_cons]
    have htri := abs_add ((if 0 < calcShare asset pool totalW hd.2 then
        calcShare asset pool totalW hd.2 else 0) - pool / totalW * hd.2)
      (((List.filterMap (fun lw =>
        let c := calcShare asset pool totalW lw.2
        if 0 < c then some (lw.1, c) else none) tl).map Prod.snd).sum -
        pool / totalW * (tl.map Prod.snd).sum)
    have heq : (if 0 < calcShare asset pool totalW hd.2 then
        calcShare asset pool totalW hd.2 else 0) +
        ((List.filterMap (fun lw =>
          let c := calcShare asset pool totalW lw.2
          if 0 < c then some (lw.1, c) else none) tl).map Prod.snd).sum -
        pool / totalW * (hd.2 + (tl.map Prod.snd).sum) =
        ((if 0 < calcShare asset pool totalW hd.2 then
          calcShare asset pool totalW hd.2 else 0) - pool / totalW * hd.2) +
        (((List.filterMap (fun lw =>
          let c := calcShare asset pool totalW lw.2
          if 0 < c then some (lw.1, c) else none) tl).map Prod.snd).sum -
          pool / totalW * (tl.map Prod.snd).sum) := by ring
    rw [heq]
    refine le_trans htri ?_
    push_cast
    linarith [add_le_add hhead hih]

lemma effWeights_sum (l1 l2 l3 : Bool) :
    ((effWeights l1 l2 l3 true).map Prod.snd).sum = TOTAL_SHARE := by
  cases l1 <;> cases l2 <;> cases l3 <;>
    norm_num [effWeights, TOTAL_SHARE, LVL1_SHARE, LVL2_SHARE, LVL3_SHARE,
      COMPANY_SHARE]

lemma effWeights_pos (l1 l2 l3 : Bool) :
    ∀ p ∈ effWeights l1 l2 l3 true, 0 < p.2 := by
  cases l1 <;> cases l2 <;> cases l3 <;>
    norm_num [effWeights, LVL1_SHARE, LVL2_SHARE, LVL3_SHARE, COMPANY_SHARE]

lemma effWeights_len (l1 l2 l3 : Bool) : (effWeights l1 l2 l3 true).length ≤ 4 := by
  cases l1 <;> cases l2 <;> cases l3 <;> simp [effWeights]

/-- Claim C6: with a company recipient configured, absent levels' nominal
shares roll up to the company, so (i) the effective weights always sum to
the full nominal rate regardless of which uplines exist, (ii) the beneficiary
amounts of one `awardReferral` event sum to the full pool within the
per-asset rounding tolerance (at most 4 candidates, each rounded to one
`ulp`, giving a `2 * ulp` bound), and (iii)-(iv) in the scenario with only
level 1 present the company row's amount is exactly the rounded share of its
own nominal weight plus levels 2 and 3's nominal weights. -/
theorem referral_rollup_distributes_full_pool (lvl1 lvl2 lvl3 : Bool)
    (asset : String) (pool : ℚ) (hpool : 0 < pool) :
    ((effWeights lvl1 lvl2 lvl3 true).map Prod.snd).sum = TOTAL_SHARE ∧
    |((awardEvents lvl1 lvl2 lvl3 true asset pool).map Prod.snd).sum - pool| ≤
      2 * ulp asset ∧
    (∀ c, ("company", c) ∈ awardEvents true false false true asset pool →
      c = calcShare asset pool TOTAL_SHARE
        (COMPANY_SHARE + LVL2_SHARE + LVL3_SHARE)) ∧
    (0 < calcShare asset pool TOTAL_SHARE
        (COMPANY_SHARE + LVL2_SHARE + LVL3_SHARE) →
      ("company", calcShare asset pool TOTAL_SHARE
        (COMPANY_SHARE + LVL2_SHARE + LVL3_SHARE)) ∈
        awardEvents true false false true asset pool) := by
  have hTS : (TOTAL_SHARE : ℚ) = 10 := by
    norm_num [TOTAL_SHARE, LVL1_SHARE, LVL2_SHARE, LVL3_SHARE, COMPANY_SHARE]
  have hW : (0 : ℚ) < TOTAL_SHARE := by
    rw [hTS]
    norm_num
  refine ⟨effWeights_sum lvl1 lvl2 lvl3, ?_, ?_, ?_⟩
  · have key := awardEvents_sum_close asset pool TOTAL_SHARE hpool hW
      (effWeights lvl1 lvl2 lvl3 true) (effWeights_pos lvl1 lvl2 lvl3)
    rw [effWeights_sum lvl1 lvl2 lvl3] at key
    rw [div_mul_cancel₀ pool (ne_of_gt hW)] at key
    have hle : ((effWeights lvl1 lvl2 lvl3 true).length : ℚ) * (ulp asset / 2) ≤
        4 * (ulp asset / 2) := by
      have hu := ulp_pos asset
      have hcast : ((effWeights lvl1 lvl2 lvl3 true).length : ℚ) ≤ 4 := by
        exact_mod_cast effWeights_len lvl1 lvl2 lvl3
      nlinarith
    have hgoal : ((awardEvents lvl1 lvl2 lvl3 true asset pool).map Prod.snd).sum =
        (((effWeights lvl1 lvl2 lvl3 true).filterMap (fun lw =>
          let c := calcShare asset pool TOTAL_SHARE lw.2
          if 0 < c then some (lw.1, c) else none)).map Prod.snd).sum := by
      rw [awardEvents, effWeights_sum lvl1 lvl2 lvl3]
    rw [hgoal]
    refine le_trans (le_trans key hle) ?_
    have hu := ulp_pos asset
    linarith
  · intro c hc
    norm_num [awardEvents, effWeights, List.mem_filterMap, TOTAL_SHARE,
      LVL1_SHARE, LVL2_SHARE, LVL3_SHARE, COMPANY_SHARE] at hc ⊢
    rcases hc with ⟨_, hlv, _⟩ | ⟨_, hceq⟩
    · exact absurd hlv (by decide)
    · exact hceq.symm
  · intro hpos
    norm_num [awardEvents, effWeights, List.mem_filterMap, TOTAL_SHARE,
      LVL1_SHARE, LVL2_SHARE, LVL3_SHARE, COMPANY_SHARE] at hpos ⊢
    exact Or.inr hpos

/-- Witness for C6 at `pool = 100` USDT: the company row (receiving its own
1.5 plus the absent levels 2 and 3's 2.5 + 1.5 nominal shares, i.e. weight
5.5 of 10) is among the created beneficiary rows. -/
theorem referral_rollup_distributes_full_pool_witness :
    ("company", calcShare "USDT" 100 TOTAL_SHARE
      (COMPANY_SHARE + LVL2_SHARE + LVL3_SHARE)) ∈
      awardEvents true false false true "USDT" 100 :=
  (referral_rollup_distributes_full_pool true false false "USDT" 100
      (by norm_num)).2.2.2
    (by
      simp [calcShare, jsRound, ulp, TOTAL_SHARE, COMPANY_SHARE, LVL1_SHARE,
        LVL2_SHARE, LVL3_SHARE]
      norm_num)


lemma pickGo_length {α : Type} (g : ℕ → ℕ) (k : ℕ) :
    ∀ (step : ℕ) (bag : List α), (pickGo g step bag k).length = min k bag.length := by
  induction k with
  | zero => intro step bag; simp [pickGo]
  | succ k ih =>
    intro step bag
    rw [pickGo]
    split_ifs with h
    · simp [h]
    · simp only [List.length_cons, ih]
      have hpos : 0 < bag.length := Nat.pos_of_ne_zero h
      have hlen : (bag.eraseIdx (g step % bag.length)).length = bag.length - 1 :=
        List.length_eraseIdx_of_lt (Nat.mod_lt _ hpos)
      rw [hlen]
      omega

lemma pickGo_subset {α : Type} (g : ℕ → ℕ) (k : ℕ) :
    ∀ (step : ℕ) (bag : List α) (x : α), x ∈ pickGo g step bag k → x ∈ bag := by
  induction k with
  | zero => intro step bag x hx; simp [pickGo] at hx
  | succ k ih =>
    intro step bag x hx
    rw [pickGo] at hx
    split_ifs at hx with h
    · simp at hx
    · rcases List.mem_cons.mp hx with heq | hmem
      · rw [heq]
        exact List.get_mem _ _ _
      · exact List.eraseIdx_subset _ _ (ih _ _ _ hmem)

lemma pickWR_length {α : Type} (g : ℕ → ℕ) (arr : List α) (k : ℕ) :
    (pickWithoutReplacement g arr k).length = min k arr.length := by
  rw [pickWithoutReplacement]
  split_ifs with h1 h2
  · rcases h1 with h | h <;> simp [h]
  · simp [Nat.min_eq_right h2]
  · exact pickGo_length g k 0 arr

lemma pickWR_subset {α : Type} (g : ℕ → ℕ) (arr : List α) (k : ℕ) (x : α)
    (hx : x ∈ pickWithoutReplacement g arr k) : x ∈ arr := by
  rw [pickWithoutReplacement] at hx
  split_ifs at hx with h1 h2
  · simp at hx
  · exact hx
  · exact pickGo_subset g k 0 arr x hx

lemma selectWinners_spec (g1 g2 : ℕ → ℕ) (oldT newT : List Ticket)
    (ow nw : List Ticket) (hsel : selectWinners g1 g2 oldT newT = (ow, nw)) :
    ow.length + nw.length ≤ AIRDROP_REWARD_UNITS ∧
    nw.length = min NEW_PICK (min AIRDROP_REWARD_UNITS newT.length) ∧
    (∀ t ∈ nw, t ∈ newT) ∧
    (∀ t ∈ ow, t ∈ oldT ∧ t.user_id ∉ nw.map (fun x => x.user_id)) ∧
    ow.length ≤ oldT.length := by
  simp only [selectWinners] at hsel
  injection hsel with how hnw
  subst how
  subst hnw
  set newPick := min NEW_PICK (min AIRDROP_REWARD_UNITS newT.length) with hnp
  set nw := if 0 < newPick then pickWithoutReplacement g1 newT newPick else []
    with hnwdef
  have hnwlen : nw.length = newPick := by
    rw [hnwdef]
    split_ifs with h
    · rw [pickWR_length]
      have hle : newPick ≤ newT.length := by
        rw [hnp]
        omega
      omega
    · push_neg at h
      simp
      omega
  have hnwsub : ∀ t ∈ nw, t ∈ newT := by
    intro t ht
    rw [hnwdef] at ht
    split_ifs at ht with h
    · exact pickWR_subset g1 newT newPick t ht
    · simp at ht
  set oldFiltered := if nw.map (fun t => t.user_id) = [] then oldT
    else oldT.filter (fun t => !((nw.map (fun t => t.user_id)).contains t.user_id))
    with hof
  set oldPick := min OLD_PICK
    (min (AIRDROP_REWARD_UNITS - nw.length) oldFiltered.length) with hop
  set ow := if 0 < oldPick then pickWithoutReplacement g2 oldFiltered oldPick
    else [] with howdef
  have howlen : ow.length = oldPick := by
    rw [howdef]
    split_ifs with h
    · rw [pickWR_length]
      have hle : oldPick ≤ oldFiltered.length := by
        rw [hop]
        omega
      omega
    · push_neg at h
      simp
      omega
  have hoflen : oldFiltered.length ≤ oldT.length := by
    rw [hof]
    split_ifs with h
    · exact le_rfl
    · exact List.length_filter_le _ _
  have howsub : ∀ t ∈ ow, t ∈ oldFiltered := by
    intro t ht
    rw [howdef] at ht
    split_ifs at ht with h
    · exact pickWR_subset g2 oldFiltered oldPick t ht
    · simp at ht
  refine ⟨?_, ?_, hnwsub, ?_, ?_⟩
  · have h1 : oldPick ≤ AIRDROP_REWARD_UNITS - nw.length := by
      rw [hop]
      omega
    have h2 : newPick ≤ AIRDROP_REWARD_UNITS := by
      rw [hnp]
      omega
    omega
  · rw [hnwlen, hnp]
  · intro t ht
    have htf := howsub t ht
    rw [hof] at htf
    split_ifs at htf with h
    · refine ⟨htf, ?_⟩
      rw [h]
      simp
    · rw [List.mem_filter] at htf
      refine ⟨htf.1, ?_⟩
      have hb := htf.2
      simp at hb
      simpa using hb
  · calc ow.length = oldPick := howlen
      _ ≤ oldFiltered.length := by rw [hop]; omega
      _ ≤ oldT.length := hoflen

lemma cohortStep_good (prevUnits : ℤ) (rows : List PosRow) (r : PosRow)
    (hr : r ∈ rows) (acc : ℤ × List Ticket × List Ticket)
    (hacc : ∀ t, (t ∈ acc.2.1 ∨ t ∈ acc.2.2) → GoodTicket rows t) :
    ∀ t, (t ∈ (cohortStep prevUnits acc r).2.1 ∨
          t ∈ (cohortStep prevUnits acc r).2.2) → GoodTicket rows t := by
  intro t ht
  simp only [cohortStep] at ht
  split_ifs at ht with h1 h2 h3 h4
  · exact hacc t ht
  · exact hacc t ht
  · exact hacc t ht
  · exact hacc t ht
  · have hgood : GoodTicket rows ⟨r.id, r.user_id⟩ := by
      push_neg at h2 h3
      have hact : r.status = "active" := h2
      have hun : 0 < unconsumedUnits r := h3
      have hfl : 0 < ⌊(r.cap_usdt - r.credited_usdt) /
          (r.unit_amount_usdt * r.cap_multiplier)⌋ := by
        rw [unconsumedUnits] at hun
        rcases lt_max_iff.mp hun with h | h
        · exact absurd h (lt_irrefl 0)
        · exact (lt_min_iff.mp h).2
      exact ⟨r, hr, rfl, rfl, hact, hfl⟩
    rcases ht with ht | ht <;>
      rcases List.mem_append.mp ht with hm | hm
    · exact hacc t (Or.inl hm)
    · rw [(List.eq_of_mem_replicate hm)]
      exact hgood
    · exact hacc t (Or.inr hm)
    · rw [(List.eq_of_mem_replicate hm)]
      exact hgood

lemma buildCohorts_good_aux (prevUnits : ℤ) (rows : List PosRow) :
    ∀ (l : List PosRow), (∀ x ∈ l, x ∈ rows) →
    ∀ (acc : ℤ × List Ticket × List Ticket),
      (∀ t, (t ∈ acc.2.1 ∨ t ∈ acc.2.2) → GoodTicket rows t) →
      ∀ t, (t ∈ (l.foldl (cohortStep prevUnits) acc).2.1 ∨
            t ∈ (l.foldl (cohortStep prevUnits) acc).2.2) → GoodTicket rows t := by
  intro l
  induction l with
  | nil =>
    intro _ acc hacc t ht
    exact hacc t ht
  | cons r rest ih =>
    intro hsub acc hacc t ht
    exact ih (fun x hx => hsub x (List.mem_cons_of_mem _ hx))
      (cohortStep prevUnits acc r)
      (cohortStep_good prevUnits rows r (hsub r (List.mem_cons_self _ _)) acc hacc)
      t ht

lemma buildCohorts_good (rows : List PosRow) (prevUnits : ℤ) (t : Ticket)
    (ht : t ∈ (buildCohortsConsumed rows prevUnits).1 ∨
          t ∈ (buildCohortsConsumed rows prevUnits).2) : GoodTicket rows t := by
  rw [buildCohortsConsumed] at ht
  exact buildCohorts_good_aux prevUnits rows rows (fun x hx => hx) (0, [], [])
    (fun s hs => by rcases hs with h | h <;> simp at h) t ht

/-- Claim C7: for every outcome of the random draws (oracles `g1`, `g2`), a
round selects at most `AIRDROP_REWARD_UNITS` winning tickets; exactly
`min(NEW_PICK, min(AIRDROP_REWARD_UNITS, |new pool|))` come from the new pool
(a smaller pool simply yields fewer winners, never fabricated tickets); every
old-pool winner's user was not already drawn from the new pool; winners are
tickets of their pools; and every ticket of either pool belongs to an active
position with positive unconsumed capacity
`floor((cap_total - credited_total)/perUnitPayout)`. -/
theorem airdrop_winner_selection_sound (g1 g2 : ℕ → ℕ) (rows : List PosRow)
    (prevUnits : ℤ) (oldT newT ow nw : List Ticket)
    (hpools : buildCohortsConsumed rows prevUnits = (oldT, newT))
    (hsel : selectWinners g1 g2 oldT newT = (ow, nw)) :
    ow.length + nw.length ≤ AIRDROP_REWARD_UNITS ∧
    nw.length = min NEW_PICK (min AIRDROP_REWARD_UNITS newT.length) ∧
    (∀ t ∈ nw, t ∈ newT) ∧
    (∀ t ∈ ow, t ∈ oldT ∧ t.user_id ∉ nw.map (fun x => x.user_id)) ∧
    ow.length ≤ oldT.length ∧
    (∀ t, t ∈ ow ∨ t ∈ nw → GoodTicket rows t) := by
  obtain ⟨h1, h2, h3, h4, h5⟩ := selectWinners_spec g1 g2 oldT newT ow nw hsel
  refine ⟨h1, h2, h3, h4, h5, ?_⟩
  intro t ht
  apply buildCohorts_good rows prevUnits t
  rw [hpools]
  rcases ht with ht | ht
  · exact Or.inl ((h4 t ht).1)
  · exact Or.inr (h3 t ht)

/-- Witness for C7: a single completed position contributes no tickets, both
pools are empty, and the round selects zero winners rather than fabricating
tickets. -/
theorem airdrop_winner_selection_sound_witness :
    ([] : List Ticket).length + ([] : List Ticket).length ≤
      AIRDROP_REWARD_UNITS :=
  (airdrop_winner_selection_sound (fun _ => 0) (fun _ => 0)
    [⟨1, 10, 5, 270, 0, 9, 3, "completed"⟩] 0 [] [] [] []
    (by decide) (by decide)).1

end Vegapunk
